import Mathlib

/-!
Verification of the stroke/object interaction engine of the iPad sketch pad.

The scene is an ordered list of heterogeneous drawable entities (ink strokes,
raster image objects, smart objects).  JS numbers are modelled as rationals;
JS object references are modelled by scene-list positions (deleting or
mutating "a captured reference" acts on the position the object occupied);
JS arrays are Lean lists.  Each definition is a direct translation of the
named source function.
-/

namespace SketchPad

/-- Canvas-space point `{x, y}` (value type, float coordinates modelled as `ℚ`). -/
structure Point where
  x : ℚ
  y : ℚ
deriving DecidableEq, Repr

/-- The three entity kinds of the scene list (`drawingManager.strokes`):
ink strokes (`type: 'pen'` with parallel `points`/`pressures`/`tilts` arrays),
image objects (`type: 'image-object'`), and smart objects (`type: 'smart-object'`).
In the JS the kinds are a loosely-typed bag dispatched on `stroke.type` and on
presence of `stroke.points`; only pen strokes carry a `points` field. -/
inductive Entity where
  | pen (points : List Point) (pressures : List ℚ) (tilts : List Point) (selected : Bool)
  | imageObject (position : Point) (width height : ℚ) (imageData : Option String)
      (selected : Bool) (isGenerating : Bool) (currentFrame : ℕ)
  | smartObject (position : Point) (emoji behavior : String) (action : Option String)
      (selected : Bool)
deriving DecidableEq, Repr

/-- Placeholder element used for out-of-range list reads (never reached on valid indices). -/
def defaultEntity : Entity := .pen [] [] [] false

instance : Inhabited Entity := ⟨defaultEntity⟩

def Entity.isPen : Entity → Bool
  | .pen _ _ _ _ => true
  | _ => false

def Entity.isImage : Entity → Bool
  | .imageObject _ _ _ _ _ _ _ => true
  | _ => false

def Entity.isSmart : Entity → Bool
  | .smartObject _ _ _ _ _ => true
  | _ => false

def Entity.selected : Entity → Bool
  | .pen _ _ _ s => s
  | .imageObject _ _ _ _ s _ _ => s
  | .smartObject _ _ _ _ s => s

/-- `stroke.selected = true` (all other fields untouched). -/
def Entity.setSelected : Entity → Entity
  | .pen ps prs ts _ => .pen ps prs ts true
  | .imageObject pos w h dat _ g f => .imageObject pos w h dat true g f
  | .smartObject pos e b a _ => .smartObject pos e b a true

/- ## Pinch scaling (src/unnamed/part_004, `DrawingManager.handleScaleMove`) -/

/-- `const minSize = 50` in `handleScaleMove`. -/
def minSize : ℚ := 50

/-- `const maxSize = 1000` in `handleScaleMove`. -/
def maxSize : ℚ := 1000

/-- Image-object branch of `DrawingManager.handleScaleMove`
(src/unnamed/part_004 lines 1775-1809): the scale factor is the ratio of the
current pinch distance to the initial one, the new width/height are the
sizes captured at pinch start times the factor, clamped by
`Math.max(minSize, Math.min(maxSize, ·))`. -/
def handleScaleMoveImage (scaleStartDistance currentDistance scaleStartWidth scaleStartHeight : ℚ) :
    ℚ × ℚ :=
  let scaleFactor := currentDistance / scaleStartDistance
  let newWidth := scaleStartWidth * scaleFactor
  let newHeight := scaleStartHeight * scaleFactor
  (max minSize (min maxSize newWidth), max minSize (min maxSize newHeight))

/- ## Classification parse fallback (src/unnamed/part_001 `analyzeDrawing`,
     src/ai.js and src/unnamed/part_000 `analyzeAction`) -/

/-- Result shape of `analyzeDrawing` (smart-object build variant):
`{emoji, behavior, action?}`. -/
structure SmartResult where
  emoji : String
  behavior : String
  action : Option String
deriving DecidableEq, Repr

/-- Result shape of `analyzeAction` (image build variant):
`{action_type, image_prompt, description}`. -/
structure ActionResult where
  action_type : String
  image_prompt : String
  description : String
deriving DecidableEq, Repr

/-- Hardcoded fallback of `analyzeDrawing` when `JSON.parse` throws
(src/unnamed/part_001 lines 47-57; the JS literal has no `action` key, which
downstream `result.action || null` reads as null). -/
def defaultSmartResult : SmartResult :=
  { emoji := "📦", behavior := "A mysterious object that reacts to touch", action := none }

/-- Hardcoded fallback of `analyzeAction` when `JSON.parse` throws
(src/ai.js lines 64-74 and src/unnamed/part_000 lines 60-70, identical literal). -/
def defaultActionResult : ActionResult :=
  { action_type := "generate", image_prompt := "A beautiful artistic illustration",
    description := "Generate new image from sketch" }

/-- Tail of `analyzeDrawing`: `try { return JSON.parse(content) } catch { return default }`.
`JSON.parse` is a platform builtin, modelled as an oracle returning `none` on parse failure. -/
def analyzeDrawingResult (parse : String → Option SmartResult) (content : String) : SmartResult :=
  match parse content with
  | some r => r
  | none => defaultSmartResult

/-- Tail of `analyzeAction`: same try/catch shape with the action-variant fallback. -/
def analyzeActionResult (parse : String → Option ActionResult) (content : String) : ActionResult :=
  match parse content with
  | some r => r
  | none => defaultActionResult

/- ## Dragging (src/unnamed/part_004, `DrawingManager.continueDragging` /
     `finishDragging`) -/

/-- Body of the `forEach` in `continueDragging` (src/unnamed/part_004 lines
1121-1133): an image object moves its `position` by the delta, a regular stroke
maps every point by the delta; a smart object carries no `points` field, so the
`else if (stroke.points)` branch does not fire and it is left untouched. -/
def translateEntity (deltaX deltaY : ℚ) : Entity → Entity
  | .imageObject pos w h dat sel g f =>
      .imageObject ⟨pos.x + deltaX, pos.y + deltaY⟩ w h dat sel g f
  | .pen ps prs ts sel => .pen (ps.map fun p => ⟨p.x + deltaX, p.y + deltaY⟩) prs ts sel
  | .smartObject pos e b a sel => .smartObject pos e b a sel

/-- Mutation of one captured JS reference, addressed by its scene position
(`set` is a no-op out of range, matching that no scene slot holds the reference). -/
def updateAt (f : Entity → Entity) (acc : List Entity) (i : ℕ) : List Entity :=
  acc.set i (f (acc.getD i defaultEntity))

/-- `DrawingManager.continueDragging` (src/unnamed/part_004 lines 1114-1146):
`deltaX/deltaY` are the pointer movement since the last frame and every entity
of the drag group (`draggedStrokes`, here the list of their scene positions) is
translated by that same delta. -/
def continueDragging (strokes : List Entity) (dragged : List ℕ) (dragOffset point : Point) :
    List Entity :=
  let deltaX := point.x - dragOffset.x
  let deltaY := point.y - dragOffset.y
  dragged.foldl (updateAt (translateEntity deltaX deltaY)) strokes

/-- `DrawingManager.finishDragging` (src/unnamed/part_004 lines 1148-1179), for a
drop that is not over the corner drop zone: a drag group of more than one entity
gets every member's `selected` flag set; otherwise the single `selectedStroke`
reference (if any) gets its flag set. -/
def finishDragging (strokes : List Entity) (dragged : List ℕ) (selectedStroke : Option ℕ) :
    List Entity :=
  if 1 < dragged.length then
    dragged.foldl (updateAt Entity.setSelected) strokes
  else
    match selectedStroke with
    | some i => updateAt Entity.setSelected strokes i
    | none => strokes

lemma foldl_updateAt_getElem? (f : Entity → Entity) (S : List ℕ) (hS : S.Nodup)
    (l : List Entity) (j : ℕ) :
    (S.foldl (updateAt f) l)[j]? = if j ∈ S then (l[j]?).map f else l[j]? := by
  induction S generalizing l with
  | nil => simp
  | cons i rest ih =>
      rw [List.foldl_cons,
        ih (List.nodup_cons.mp hS).2 (updateAt f l i)]
      have hMem : i ∉ rest := (List.nodup_cons.mp hS).1
      by_cases hjr : j ∈ rest
      · have hij : i ≠ j := fun h => hMem (h ▸ hjr)
        simp [hjr, updateAt, List.getElem?_set, hij, List.mem_cons]
      · by_cases hij : i = j
        · subst hij
          by_cases hlt : i < l.length
          · simp [hjr, updateAt, List.getElem?_set, hlt,
              List.getD_eq_getElem l defaultEntity hlt,
              List.getElem?_eq_getElem hlt]
          · simp [hjr, updateAt, List.getElem?_set, hlt,
              List.getElem?_eq_none (Nat.le_of_not_lt hlt)]
        · simp [hjr, updateAt, List.getElem?_set, hij, Ne.symm hij, List.mem_cons]

lemma foldl_updateAt_length (f : Entity → Entity) (S : List ℕ) (l : List Entity) :
    (S.foldl (updateAt f) l).length = l.length := by
  induction S generalizing l with
  | nil => rfl
  | cons i rest ih =>
      rw [List.foldl_cons, ih]
      simp [updateAt]

/- ## Lasso selection (src/unnamed/part_004 `findStrokesInLasso` /
     `isPointInPolygon` / `finishLassoSelection`; src/unnamed/part_005 for the
     smart-object build variant) -/

/-- One iteration of the `isPointInPolygon` loop, for the edge between
`cur = polygon[i]` and `prev = polygon[j]` (`j` is the previous index): the
parity flips when the edge straddles the horizontal line through `p` and the
ray crossing lies strictly to the right of `p`.  The JS `&&` short-circuits, so
the division is only reached when `cur.y ≠ prev.y`; `ℚ` division is total anyway. -/
def edgeCrosses (p cur prev : Point) : Bool :=
  (decide (cur.y > p.y) != decide (prev.y > p.y)) &&
    decide (p.x < (prev.x - cur.x) * (p.y - cur.y) / (prev.y - cur.y) + cur.x)

/-- The loop of `isPointInPolygon`: `prev` tracks `polygon[j]`, `inside` the parity. -/
def foldEdges (p : Point) : Point → List Point → Bool → Bool
  | _, [], inside => inside
  | prev, cur :: rest, inside =>
      foldEdges p cur rest (if edgeCrosses p cur prev then !inside else inside)

/-- `isPointInPolygon` (src/unnamed/part_004 lines 1581-1590): even-odd ray
casting over the implicitly closed polygon; the loop visits `i = 0..n-1` with
`j = i - 1` (the last index for `i = 0`). -/
def isPointInPolygon (p : Point) (polygon : List Point) : Bool :=
  foldEdges p (polygon.getLastD ⟨0, 0⟩) polygon false

/-- part_004 `findStrokesInLasso` test for one entity: image objects test their
center, regular strokes test each point (the `forEach` or-accumulation into
`isInside` is `List.any`); smart objects carry no `points` field, so neither
branch applies in this build variant. -/
def entityInLasso (lassoPoints : List Point) : Entity → Bool
  | .imageObject pos _ _ _ _ _ _ => isPointInPolygon pos lassoPoints
  | .pen ps _ _ _ => ps.any fun q => isPointInPolygon q lassoPoints
  | .smartObject _ _ _ _ _ => false

/-- part_005 (smart-object build) `findStrokesInLasso` test: smart objects test
their center, regular strokes each point; an image object would carry no
`points` field in that dispatch. -/
def entityInLassoSmart (lassoPoints : List Point) : Entity → Bool
  | .smartObject pos _ _ _ _ => isPointInPolygon pos lassoPoints
  | .pen ps _ _ _ => ps.any fun q => isPointInPolygon q lassoPoints
  | .imageObject _ _ _ _ _ _ _ => false

/-- `findStrokesInLasso` (src/unnamed/part_004 lines 1552-1579): collect the
entities whose test succeeds, in scene order. -/
def findStrokesInLasso (strokes : List Entity) (lassoPoints : List Point) : List Entity :=
  strokes.filter (entityInLasso lassoPoints)

/-- src/unnamed/part_005 lines 514-541, same collection with the smart-object test. -/
def findStrokesInLassoSmart (strokes : List Entity) (lassoPoints : List Point) : List Entity :=
  strokes.filter (entityInLassoSmart lassoPoints)

/-- `finishLassoSelection` (src/unnamed/part_004 lines 1213-1228): with a lasso
path of more than 2 points every found stroke gets `selected = true`; shorter
paths select nothing. -/
def finishLassoSelection (strokes : List Entity) (lassoPoints : List Point) : List Entity :=
  if 2 < lassoPoints.length then
    strokes.map fun s => if entityInLasso lassoPoints s then s.setSelected else s
  else strokes

/-- Selection predicate following the spec's words (for the refinement
comparison with the code's accumulation loops): an entity is selected iff at
least one of its points (ink) or its single center point (image/smart) is
inside the polygon. -/
def lassoSpec (lassoPoints : List Point) : Entity → Prop
  | .pen ps _ _ _ => ∃ q ∈ ps, isPointInPolygon q lassoPoints = true
  | .imageObject pos _ _ _ _ _ _ => isPointInPolygon pos lassoPoints = true
  | .smartObject pos _ _ _ _ => isPointInPolygon pos lassoPoints = true

/-- A point strictly inside an axis-aligned square lasso path is reported inside
by the even-odd ray casting: exactly the left-going top edge crossing toggles. -/
lemma isPointInPolygon_square (a b c d px py : ℚ) (hax : a < px) (hxb : px < b)
    (hcy : c < py) (hyd : py < d) :
    isPointInPolygon ⟨px, py⟩ [⟨a, c⟩, ⟨b, c⟩, ⟨b, d⟩, ⟨a, d⟩] = true := by
  have e1 : (a - a) * (py - c) / (d - c) + a = a := by ring
  have e2 : (b - b) * (py - d) / (c - d) + b = b := by ring
  simp [isPointInPolygon, foldEdges, edgeCrosses, e1, e2,
    hax.asymm, hxb, hcy.asymm, hyd]

/- ## Index-based deletion (src/actions.js `CanvasActions.delete`;
     src/ai.js lines 432-449 `executeCustomAction` delete branch, identical loop) -/

/-- `array.splice(i, 1)`: remove the element at index `i`, no-op out of range. -/
def spliceAt (l : List Entity) (i : ℕ) : List Entity := l.eraseIdx i

/-- Insert into a descending list: `x` goes before the first element `≤` it. -/
def insertDesc (x : ℤ) : List ℤ → List ℤ
  | [] => [x]
  | y :: ys => if y ≤ x then x :: y :: ys else y :: insertDesc x ys

/-- `strokeIds.sort((a, b) => b - a)`: sort the captured ids descending. -/
def sortDesc (l : List ℤ) : List ℤ := l.foldr insertDesc []

/-- The `forEach` of `CanvasActions.delete` (src/actions.js lines 7-11): splice
each id that passes `id >= 0 && id < strokes.length`, the bounds check being
against the *current* (shrinking) length. -/
def deleteLoop : List Entity → List ℤ → List Entity
  | acc, [] => acc
  | acc, i :: rest =>
      if 0 ≤ i ∧ i < (acc.length : ℤ) then deleteLoop (spliceAt acc i.toNat) rest
      else deleteLoop acc rest

/-- `CanvasActions.delete` (src/actions.js lines 3-17): sort descending, then
splice with bounds checks. -/
def canvasDelete (l : List Entity) (strokeIds : List ℤ) : List Entity :=
  deleteLoop l (sortDesc strokeIds)

/-- Spec-side deletion (for the refinement comparison): keep exactly the
elements whose original scene index is not in the captured set; an out-of-range
index matches no element and so has no effect.  `k` labels the head. -/
def removeCapturedAux (ids : List ℤ) : List Entity → ℕ → List Entity
  | [], _ => []
  | e :: es, k =>
      if (k : ℤ) ∈ ids then removeCapturedAux ids es (k + 1)
      else e :: removeCapturedAux ids es (k + 1)

/-- Spec-side deletion by the original indices of the whole scene. -/
def removeCaptured (l : List Entity) (ids : List ℤ) : List Entity :=
  removeCapturedAux ids l 0

/-- Splicing loop on already-validated natural indices (no runtime checks). -/
def deleteLoopNat : List Entity → List ℕ → List Entity
  | acc, [] => acc
  | acc, i :: rest => deleteLoopNat (spliceAt acc i) rest

/-- Keep the elements whose label (starting at `k`) is not in `S`. -/
def keepNotInAux (S : List ℕ) : List Entity → ℕ → List Entity
  | [], _ => []
  | e :: es, k =>
      if k ∈ S then keepNotInAux S es (k + 1) else e :: keepNotInAux S es (k + 1)

/-- The in-range nonnegative ids, as naturals, order preserved. -/
def validIdx (n : ℕ) (ids : List ℤ) : List ℕ :=
  (ids.filter fun i => decide (0 ≤ i) && decide (i < (n : ℤ))).map Int.toNat

lemma keepNotInAux_of_lt (S : List ℕ) (l : List Entity) (k : ℕ)
    (h : ∀ j ∈ S, j < k) : keepNotInAux S l k = l := by
  induction l generalizing k with
  | nil => rfl
  | cons e es ih =>
      rw [keepNotInAux, if_neg fun hk => absurd (h k hk) (lt_irrefl k),
        ih (k + 1) fun j hj => (h j hj).trans (Nat.lt_succ_self k)]

lemma keepNotInAux_spliceAt (S : List ℕ) (l : List Entity) (i k : ℕ)
    (hi : i < l.length) (hS : ∀ j ∈ S, j < k + i) :
    keepNotInAux S (spliceAt l i) k = keepNotInAux ((k + i) :: S) l k := by
  induction l generalizing i k with
  | nil => exact absurd hi (Nat.not_lt_zero i)
  | cons e es ih =>
      cases i with
      | zero =>
          have h1 : ∀ j ∈ S, j < k := by simpa using hS
          rw [show spliceAt (e :: es) 0 = es from rfl, keepNotInAux_of_lt S es k h1,
            show k + 0 = k from rfl, keepNotInAux, if_pos (List.mem_cons_self k S),
            keepNotInAux_of_lt _ es (k + 1)]
          intro j hj
          rcases List.mem_cons.mp hj with h | h
          · omega
          · exact (h1 j h).trans (Nat.lt_succ_self k)
      | succ i' =>
          have hsp : spliceAt (e :: es) (i' + 1) = e :: spliceAt es i' := rfl
          have hki : ¬ (k = k + (i' + 1)) := by omega
          have hmem : k ∈ (k + (i' + 1)) :: S ↔ k ∈ S := by
            simp only [List.mem_cons]
            exact or_iff_right hki
          have hrec := ih i' (k + 1) (by simpa using hi) (fun j hj => by
            have := hS j hj; omega)
          have hlab : k + 1 + i' = k + (i' + 1) := by omega
          rw [hlab] at hrec
          by_cases hk : k ∈ S
          · rw [hsp, keepNotInAux, if_pos hk, keepNotInAux, if_pos (hmem.mpr hk), hrec]
          · rw [hsp, keepNotInAux, if_neg hk, keepNotInAux,
              if_neg (fun h => hk (hmem.mp h)), hrec]

lemma deleteLoopNat_eq_keepNotInAux (S : List ℕ) (l : List Entity)
    (hsort : S.Pairwise (· > ·)) (hv : ∀ j ∈ S, j < l.length) :
    deleteLoopNat l S = keepNotInAux S l 0 := by
  induction S generalizing l with
  | nil => exact (keepNotInAux_of_lt [] l 0 (by simp)).symm
  | cons i rest ih =>
      have hi : i < l.length := hv i (List.mem_cons_self i rest)
      have hlt : ∀ j ∈ rest, j < i := fun j hj =>
        (List.pairwise_cons.mp hsort).1 j hj
      have hlen : (spliceAt l i).length = l.length - 1 :=
        List.length_eraseIdx_of_lt hi
      rw [deleteLoopNat, ih (spliceAt l i) (List.pairwise_cons.mp hsort).2
        (fun j hj => by rw [hlen]; have := hlt j hj; omega),
        keepNotInAux_spliceAt rest l i 0 hi (by simpa using hlt)]
      norm_num

lemma validIdx_pred (n : ℕ) (ids : List ℤ)
    (i : ℤ) (hi : 0 ≤ i) (hin : i < (n : ℤ)) (hhd : ∀ j ∈ ids, j < i) :
    validIdx (n - 1) ids = validIdx n ids := by
  unfold validIdx
  congr 1
  apply List.filter_congr
  intro j hj
  have hji := hhd j hj
  have hcast : ((n - 1 : ℕ) : ℤ) = (n : ℤ) - 1 := by omega
  congr 1
  rw [decide_eq_decide, hcast]
  omega

lemma deleteLoop_eq_deleteLoopNat (ids : List ℤ) (hsort : ids.Pairwise (· > ·)) :
    ∀ l : List Entity, deleteLoop l ids = deleteLoopNat l (validIdx l.length ids) := by
  induction ids with
  | nil => intro l; rfl
  | cons i rest ih =>
      intro l
      have hrest : rest.Pairwise (· > ·) := (List.pairwise_cons.mp hsort).2
      have hlt : ∀ j ∈ rest, j < i := fun j hj => (List.pairwise_cons.mp hsort).1 j hj
      by_cases hok : 0 ≤ i ∧ i < (l.length : ℤ)
      · have hnat : i.toNat < l.length := by omega
        have hlen : (spliceAt l i.toNat).length = l.length - 1 :=
          List.length_eraseIdx_of_lt hnat
        have htrue : (decide (0 ≤ i) && decide (i < (l.length : ℤ))) = true := by
          simp [hok.1, hok.2]
        have hcons : validIdx l.length (i :: rest) = i.toNat :: validIdx l.length rest := by
          unfold validIdx
          rw [List.filter_cons, if_pos htrue, List.map_cons]
        rw [deleteLoop, if_pos hok, ih hrest (spliceAt l i.toNat), hlen,
          validIdx_pred l.length rest i hok.1 hok.2 hlt, hcons, deleteLoopNat]
      · have hfalse : ¬ ((decide (0 ≤ i) && decide (i < (l.length : ℤ))) = true) := by
          simpa only [Bool.and_eq_true, decide_eq_true_eq] using hok
        have hcons : validIdx l.length (i :: rest) = validIdx l.length rest := by
          unfold validIdx
          rw [List.filter_cons, if_neg hfalse]
        rw [deleteLoop, if_neg hok, ih hrest l, hcons]

lemma mem_validIdx (n : ℕ) (ids : List ℤ) (m : ℕ) :
    m ∈ validIdx n ids ↔ (m : ℤ) ∈ ids ∧ m < n := by
  unfold validIdx
  simp only [List.mem_map, List.mem_filter, Bool.and_eq_true, decide_eq_true_eq]
  constructor
  · rintro ⟨j, ⟨hj, h0, hn⟩, rfl⟩
    rw [Int.toNat_of_nonneg h0]
    exact ⟨hj, by omega⟩
  · rintro ⟨hm, hn⟩
    exact ⟨(m : ℤ), ⟨hm, by omega, by omega⟩, by omega⟩

lemma keepNotInAux_eq_removeCapturedAux (S : List ℕ) (ids : List ℤ)
    (l : List Entity) (k : ℕ)
    (h : ∀ m : ℕ, k ≤ m → m < k + l.length → (m ∈ S ↔ (m : ℤ) ∈ ids)) :
    keepNotInAux S l k = removeCapturedAux ids l k := by
  induction l generalizing k with
  | nil => rfl
  | cons e es ih =>
      have hk := h k (le_refl k) (by simp)
      have hrec := ih (k + 1) fun m h1 h2 => h m (by omega) (by simp at h2 ⊢; omega)
      rw [keepNotInAux, removeCapturedAux]
      by_cases hkS : k ∈ S
      · rw [if_pos hkS, if_pos (hk.mp hkS), hrec]
      · rw [if_neg hkS, if_neg fun hz => hkS (hk.mpr hz), hrec]

lemma sortDesc_perm (l : List ℤ) : (sortDesc l).Perm l := by
  induction l with
  | nil => exact List.Perm.refl []
  | cons x xs ih =>
      have hins : ∀ (ys : List ℤ), (insertDesc x ys).Perm (x :: ys) := by
        intro ys
        induction ys with
        | nil => exact List.Perm.refl [x]
        | cons y ys ihy =>
            rw [insertDesc]
            by_cases hxy : y ≤ x
            · rw [if_pos hxy]
            · rw [if_neg hxy]
              exact (List.Perm.cons y ihy).trans (List.Perm.swap x y ys)
      exact (hins (sortDesc xs)).trans (List.Perm.cons x ih)

lemma mem_insertDesc {z x : ℤ} {ys : List ℤ} (h : z ∈ insertDesc x ys) :
    z = x ∨ z ∈ ys := by
  induction ys with
  | nil => simpa [insertDesc] using h
  | cons y ys ihy =>
      rw [insertDesc] at h
      by_cases hxy : y ≤ x
      · rw [if_pos hxy] at h
        simpa using h
      · rw [if_neg hxy] at h
        rcases List.mem_cons.mp h with rfl | h
        · exact Or.inr (List.mem_cons_self _ _)
        · rcases ihy h with h | h
          · exact Or.inl h
          · exact Or.inr (List.mem_cons_of_mem _ h)

lemma insertDesc_sorted (x : ℤ) (ys : List ℤ) (hp : ys.Pairwise (· ≥ ·)) :
    (insertDesc x ys).Pairwise (· ≥ ·) := by
  induction ys with
  | nil => simp [insertDesc]
  | cons y ys ihy =>
      rw [insertDesc]
      by_cases hxy : y ≤ x
      · rw [if_pos hxy]
        refine List.pairwise_cons.mpr ⟨?_, hp⟩
        intro z hz
        rcases List.mem_cons.mp hz with rfl | hz
        · exact hxy
        · exact le_trans ((List.pairwise_cons.mp hp).1 z hz) hxy
      · rw [if_neg hxy]
        refine List.pairwise_cons.mpr ⟨?_, ihy (List.pairwise_cons.mp hp).2⟩
        intro z hz
        rcases mem_insertDesc hz with rfl | hz
        · exact le_of_lt (lt_of_not_le hxy)
        · exact (List.pairwise_cons.mp hp).1 z hz

lemma sortDesc_sorted (l : List ℤ) : (sortDesc l).Pairwise (· ≥ ·) := by
  induction l with
  | nil => exact List.Pairwise.nil
  | cons x xs ih => exact insertDesc_sorted x (sortDesc xs) ih

lemma removeCapturedAux_congr (ids ids2 : List ℤ) (l : List Entity) (k : ℕ)
    (h : ∀ m : ℕ, k ≤ m → m < k + l.length → ((m : ℤ) ∈ ids ↔ (m : ℤ) ∈ ids2)) :
    removeCapturedAux ids l k = removeCapturedAux ids2 l k := by
  induction l generalizing k with
  | nil => rfl
  | cons e es ih =>
      have hk := h k (le_refl k) (by simp)
      have hrec := ih (k + 1) fun m h1 h2 => h m (by omega) (by simp at h2 ⊢; omega)
      rw [removeCapturedAux, removeCapturedAux]
      by_cases hkS : (k : ℤ) ∈ ids
      · rw [if_pos hkS, if_pos (hk.mp hkS), hrec]
      · rw [if_neg hkS, if_neg fun hz => hkS (hk.mpr hz), hrec]

lemma validIdx_pairwise (n : ℕ) (S : List ℤ) (h : S.Pairwise (· > ·)) :
    (validIdx n S).Pairwise (· > ·) := by
  unfold validIdx
  rw [List.pairwise_map]
  have hf : (S.filter fun i => decide (0 ≤ i) && decide (i < (n : ℤ))).Pairwise (· > ·) :=
    h.sublist (List.filter_sublist S)
  refine hf.imp_of_mem fun {a b} ha hb hab => ?_
  have ha0 : 0 ≤ a := by
    have := List.mem_filter.mp ha
    simp only [Bool.and_eq_true, decide_eq_true_eq] at this
    exact this.2.1
  have hb0 : 0 ≤ b := by
    have := List.mem_filter.mp hb
    simp only [Bool.and_eq_true, decide_eq_true_eq] at this
    exact this.2.1
  omega

lemma canvasDelete_eq_removeCaptured (l : List Entity) (ids : List ℤ)
    (hN : ids.Nodup) : canvasDelete l ids = removeCaptured l ids := by
  have hperm := sortDesc_perm ids
  have hstrict : (sortDesc ids).Pairwise (· > ·) :=
    ((sortDesc_sorted ids).and (hperm.nodup_iff.mpr hN)).imp
      fun hx => lt_of_le_of_ne hx.1.le (Ne.symm hx.2)
  rw [canvasDelete, deleteLoop_eq_deleteLoopNat (sortDesc ids) hstrict l,
    deleteLoopNat_eq_keepNotInAux _ l (validIdx_pairwise l.length _ hstrict)
      (fun j hj => ((mem_validIdx l.length (sortDesc ids) j).mp hj).2),
    removeCaptured,
    keepNotInAux_eq_removeCapturedAux (validIdx l.length (sortDesc ids)) (sortDesc ids) l 0
      (fun m _ hm => by
        rw [mem_validIdx]
        simp only [Nat.zero_add] at hm
        exact and_iff_left hm)]
  exact removeCapturedAux_congr _ _ l 0 fun m _ _ => hperm.mem_iff

/- ## Reflect action (src/actions.js `CanvasActions.reflect`) -/

/-- Minimum of the scanned coordinates.  The JS fold seeds with `Infinity`, so
on a nonempty list the result agrees with folding from the head; the `[]` value
is junk that reflects the JS `NaN` center of a pointless selection, which is
never applied to any point. -/
def listMin : List ℚ → ℚ
  | [] => 0
  | x :: xs => xs.foldl min x

/-- Maximum of the scanned coordinates (JS seed `-Infinity`). -/
def listMax : List ℚ → ℚ
  | [] => 0
  | x :: xs => xs.foldl max x

/-- `strokesToReflect` (src/actions.js lines 21-24), as scene positions: the
in-range ids, in input order, whose entity is a regular stroke (`stroke.points`
exists exactly for pen entities; an empty `points` array is still truthy). -/
def reflectIdxs (l : List Entity) (strokeIds : List ℤ) : List ℕ :=
  (validIdx l.length strokeIds).filter fun i => (l.getD i defaultEntity).isPen

def xsOf : Entity → List ℚ
  | .pen ps _ _ _ => ps.map Point.x
  | _ => []

def ysOf : Entity → List ℚ
  | .pen ps _ _ _ => ps.map Point.y
  | _ => []

/-- The x coordinates scanned by the bounding-box loop of `reflect`
(src/actions.js lines 29-38), in loop order. -/
def reflectXs (l : List Entity) (strokeIds : List ℤ) : List ℚ :=
  ((reflectIdxs l strokeIds).map fun i => xsOf (l.getD i defaultEntity)).flatten

/-- `centerX = (minX + maxX) / 2` over all points of the strokes to reflect. -/
def reflectCenterX (l : List Entity) (strokeIds : List ℤ) : ℚ :=
  (listMin (reflectXs l strokeIds) + listMax (reflectXs l strokeIds)) / 2

/-- Reflect one stroke in place (src/actions.js lines 44-49):
`x ↦ centerX - (x - centerX)`, `y` kept unchanged. -/
def reflectEntity (c : ℚ) : Entity → Entity
  | .pen ps prs ts sel => .pen (ps.map fun p => ⟨c - (p.x - c), p.y⟩) prs ts sel
  | .imageObject pos w h dat sel g f => .imageObject pos w h dat sel g f
  | .smartObject pos e b a sel => .smartObject pos e b a sel

/-- `CanvasActions.reflect` (src/actions.js lines 19-55): return the scene
unchanged when no valid regular stroke is selected, otherwise compute the
common center and reflect each selected stroke reference in place. -/
def reflectAction (l : List Entity) (strokeIds : List ℤ) : List Entity :=
  if reflectIdxs l strokeIds = [] then l
  else (reflectIdxs l strokeIds).foldl
    (updateAt (reflectEntity (reflectCenterX l strokeIds))) l

lemma isPen_reflectEntity (c : ℚ) (e : Entity) :
    (reflectEntity c e).isPen = e.isPen := by
  cases e <;> rfl

lemma xsOf_reflectEntity (c : ℚ) (e : Entity) :
    xsOf (reflectEntity c e) = (xsOf e).map fun x => c - (x - c) := by
  cases e <;> simp [xsOf, reflectEntity, Function.comp]

lemma ysOf_reflectEntity (c : ℚ) (e : Entity) :
    ysOf (reflectEntity c e) = ysOf e := by
  cases e <;> simp [ysOf, reflectEntity, Function.comp]

lemma reflectEntity_involutive (c : ℚ) (e : Entity) :
    reflectEntity c (reflectEntity c e) = e := by
  cases e with
  | pen ps prs ts sel =>
      simp only [reflectEntity, List.map_map, Entity.pen.injEq, and_true]
      have : ∀ p : Point,
          ((fun p : Point => (⟨c - (p.x - c), p.y⟩ : Point)) ∘
            fun p : Point => (⟨c - (p.x - c), p.y⟩ : Point)) p = p := by
        intro p
        cases p with
        | mk px py =>
            simp only [Function.comp]
            congr 1
            ring
      rw [List.map_congr_left fun p _ => this p]
      simp
  | imageObject pos w h dat sel g f => rfl
  | smartObject pos em b a sel => rfl

lemma listMin_map_sub (a : ℚ) (xs : List ℚ) (h : xs ≠ []) :
    listMin (xs.map fun x => a - x) = a - listMax xs := by
  cases xs with
  | nil => exact absurd rfl h
  | cons x t =>
      rw [List.map_cons, listMin, listMax]
      induction t generalizing x with
      | nil => simp
      | cons y t ih =>
          rw [List.map_cons, List.foldl_cons, List.foldl_cons]
          rw [show min (a - x) (a - y) = a - max x y from ?_]
          · exact ih (max x y) (by simp)
          · rcases le_total x y with hxy | hxy
            · rw [max_eq_right hxy, min_eq_right (by linarith)]
            · rw [max_eq_left hxy, min_eq_left (by linarith)]

lemma listMax_map_sub (a : ℚ) (xs : List ℚ) (h : xs ≠ []) :
    listMax (xs.map fun x => a - x) = a - listMin xs := by
  cases xs with
  | nil => exact absurd rfl h
  | cons x t =>
      rw [List.map_cons, listMax, listMin]
      induction t generalizing x with
      | nil => simp
      | cons y t ih =>
          rw [List.map_cons, List.foldl_cons, List.foldl_cons]
          rw [show max (a - x) (a - y) = a - min x y from ?_]
          · exact ih (min x y) (by simp)
          · rcases le_total x y with hxy | hxy
            · rw [min_eq_left hxy, max_eq_left (by linarith)]
            · rw [min_eq_right hxy, max_eq_right (by linarith)]

lemma reflectAction_length (l : List Entity) (ids : List ℤ) :
    (reflectAction l ids).length = l.length := by
  unfold reflectAction
  by_cases h : reflectIdxs l ids = []
  · rw [if_pos h]
  · rw [if_neg h]
    exact foldl_updateAt_length _ _ l

lemma reflectIdxs_nodup (l : List Entity) (ids : List ℤ) (hN : ids.Nodup) :
    (reflectIdxs l ids).Nodup := by
  apply List.Nodup.filter
  apply List.Nodup.map_on ?_ (hN.filter _)
  intro x hx y hy hxy
  have hx' := List.mem_filter.mp hx
  have hy' := List.mem_filter.mp hy
  simp only [Bool.and_eq_true, decide_eq_true_eq] at hx' hy'
  omega

lemma reflectAction_getElem? (l : List Entity) (ids : List ℤ) (hN : ids.Nodup) (j : ℕ) :
    (reflectAction l ids)[j]? =
      if j ∈ reflectIdxs l ids then (l[j]?).map (reflectEntity (reflectCenterX l ids))
      else l[j]? := by
  unfold reflectAction
  by_cases h : reflectIdxs l ids = []
  · rw [if_pos h, h]
    simp
  · rw [if_neg h]
    exact foldl_updateAt_getElem? _ _ (reflectIdxs_nodup l ids hN) l j

lemma reflectIdxs_reflectAction (l : List Entity) (ids : List ℤ) (hN : ids.Nodup) :
    reflectIdxs (reflectAction l ids) ids = reflectIdxs l ids := by
  unfold reflectIdxs
  rw [reflectAction_length]
  apply List.filter_congr
  intro i hi
  have hilt : i < l.length := ((mem_validIdx _ _ _).mp hi).2
  rw [List.getD_eq_getElem?_getD, List.getD_eq_getElem?_getD,
    reflectAction_getElem? l ids hN i]
  by_cases hmem : i ∈ reflectIdxs l ids
  · rw [if_pos hmem, List.getElem?_eq_getElem hilt]
    simp [isPen_reflectEntity]
  · rw [if_neg hmem]

lemma reflectXs_reflectAction (l : List Entity) (ids : List ℤ) (hN : ids.Nodup) :
    reflectXs (reflectAction l ids) ids =
      (reflectXs l ids).map fun x =>
        reflectCenterX l ids - (x - reflectCenterX l ids) := by
  unfold reflectXs
  rw [reflectIdxs_reflectAction l ids hN,
    List.map_flatten (fun x => reflectCenterX l ids - (x - reflectCenterX l ids)) _]
  congr 1
  rw [List.map_map]
  apply List.map_congr_left
  intro i hi
  have hval := (List.mem_filter.mp hi).1
  have hilt : i < l.length := ((mem_validIdx _ _ _).mp hval).2
  simp only [Function.comp]
  rw [List.getD_eq_getElem?_getD, List.getD_eq_getElem?_getD,
    reflectAction_getElem? l ids hN i, if_pos hi,
    List.getElem?_eq_getElem hilt]
  simp [xsOf_reflectEntity]

lemma reflectCenterX_reflectAction (l : List Entity) (ids : List ℤ) (hN : ids.Nodup) :
    reflectCenterX (reflectAction l ids) ids = reflectCenterX l ids := by
  by_cases hxs : reflectXs l ids = []
  · unfold reflectCenterX
    rw [reflectXs_reflectAction l ids hN, hxs]
    simp [listMin, listMax]
  · unfold reflectCenterX
    rw [reflectXs_reflectAction l ids hN,
      show ((reflectXs l ids).map fun x =>
          reflectCenterX l ids - (x - reflectCenterX l ids)) =
        (reflectXs l ids).map (fun x => 2 * reflectCenterX l ids - x) from
        List.map_congr_left fun x _ => by ring,
      listMin_map_sub _ _ hxs, listMax_map_sub _ _ hxs]
    unfold reflectCenterX
    ring

lemma reflectAction_involutive (l : List Entity) (ids : List ℤ) (hN : ids.Nodup) :
    reflectAction (reflectAction l ids) ids = l := by
  apply List.ext_getElem?
  intro j
  rw [reflectAction_getElem? (reflectAction l ids) ids hN j,
    reflectIdxs_reflectAction l ids hN,
    reflectCenterX_reflectAction l ids hN,
    reflectAction_getElem? l ids hN j]
  by_cases hmem : j ∈ reflectIdxs l ids
  · rw [if_pos hmem, if_pos hmem]
    cases hx : l[j]? with
    | none => rfl
    | some e => simp [reflectEntity_involutive]
  · rw [if_neg hmem, if_neg hmem]

/- ## Generate / update pipeline (src/ai.js `AIGenerator.generateNewImage`
     lines 259-348 and `updateExistingImage` lines 350-430;
     src/unnamed/part_000 lines 210-275, the variant without decode-resize) -/

def Entity.isGeneratingFlag : Entity → Bool
  | .imageObject _ _ _ _ _ g _ => g
  | _ => false

def Entity.imageDataOf : Entity → Option String
  | .imageObject _ _ _ d _ _ _ => d
  | _ => none

def Entity.widthOf : Entity → ℚ
  | .imageObject _ w _ _ _ _ _ => w
  | _ => 0

def Entity.heightOf : Entity → ℚ
  | .imageObject _ _ h _ _ _ _ => h
  | _ => 0

/-- The placeholder image object inserted by `generateNewImage` (src/ai.js
lines 269-282): canvas center, 512x512, no bytes, `isGenerating = true`. -/
def placeholderObj (canvasWidth canvasHeight : ℚ) : Entity :=
  .imageObject ⟨canvasWidth / 2, canvasHeight / 2⟩ 512 512 none false true 0

/-- Positions (within the scene) of the dragged entities that are not image
objects — `draggedStrokes.filter(s => s.type !== 'image-object')`. -/
def draggedPenIdxs (l : List Entity) (dragged : List ℕ) : List ℕ :=
  dragged.filter fun i => !(l.getD i defaultEntity).isImage

/-- The synchronous dispatch part of `generateNewImage` (src/ai.js lines
259-285): each dragged non-image stroke reference is removed from the scene
(`indexOf`/`splice` of a set of distinct references = dropping their scene
positions), then the placeholder is pushed. -/
def dispatchGenerate (l : List Entity) (dragged : List ℕ) (cw ch : ℚ) : List Entity :=
  keepNotInAux (draggedPenIdxs l dragged) l 0 ++ [placeholderObj cw ch]

/-- `const maxSize = 512` local to the decode-and-resize step of the completion
callbacks (src/ai.js lines 316-328). -/
def genMaxSize : ℚ := 512

/-- Dimensions recomputed from the decoded image size, preserving the aspect
ratio capped at `genMaxSize` (`if (aspectRatio > 1)` landscape else portrait). -/
def resizeDims (imgW imgH : ℚ) : ℚ × ℚ :=
  if 1 < imgW / imgH then (genMaxSize, genMaxSize / (imgW / imgH))
  else (genMaxSize * (imgW / imgH), genMaxSize)

/-- The `onComplete` body common to both variants (src/ai.js lines 309-311,
src/unnamed/part_000 lines 251-253): assign the returned bytes and clear
`isGenerating`; the dimensions are untouched at this point. -/
def assignBytes (bytes : String) : Entity → Entity
  | .imageObject pos w h _ sel _ f => .imageObject pos w h (some bytes) sel false f
  | e => e

/-- The `img.onload` body (src/ai.js lines 315-328, absent from part_000):
recompute width/height from the decoded aspect ratio. -/
def applyResize (imgW imgH : ℚ) : Entity → Entity
  | .imageObject pos _ _ dat sel g f =>
      .imageObject pos (resizeDims imgW imgH).1 (resizeDims imgW imgH).2 dat sel g f
  | e => e

/-- The complete successful mutation of the captured image object:
bytes assigned, flag cleared, dimensions recomputed. -/
def applyGenerated (bytes : String) (imgW imgH : ℚ) (e : Entity) : Entity :=
  applyResize imgW imgH (assignBytes bytes e)

/-- Outcome of the external `generateImage` call. -/
inductive GenOutcome where
  | success (bytes : String) (imgW imgH : ℚ)
  | failure

/-- `AIGenerator.generateNewImage` (src/ai.js) as one step, the external call's
outcome a parameter: on success the callbacks mutate the captured placeholder
reference — the last scene position, where dispatch pushed it; on failure the
catch block (lines 340-344) finds that same reference via `indexOf` and
splices it out. -/
def generateNewImage (l : List Entity) (dragged : List ℕ) (cw ch : ℚ)
    (outcome : GenOutcome) : List Entity :=
  match outcome with
  | .success bytes imgW imgH =>
      updateAt (applyGenerated bytes imgW imgH) (dispatchGenerate l dragged cw ch)
        ((dispatchGenerate l dragged cw ch).length - 1)
  | .failure =>
      spliceAt (dispatchGenerate l dragged cw ch)
        ((dispatchGenerate l dragged cw ch).length - 1)

/-- The success callback of `generateNewImage` / `updateExistingImage`
(src/ai.js lines 308-335 and 396-422) as it acts on its captured reference and
the scene store: it mutates the captured object and then commits an undo
snapshot, never consulting the scene for the target's presence — the returned
pair is (mutated captured object, snapshot committed).  The `scene` parameter
is the scene store the closure could have re-derived presence from; the code
does not read it. -/
def genOnComplete (scene : List Entity) (captured : Entity) (bytes : String)
    (imgW imgH : ℚ) : Entity × Bool :=
  (applyGenerated bytes imgW imgH captured, true)

/-- src/ai.js success path of a dispatched action, two mutations in callback
order: `onComplete` assigns bytes, `img.onload` resizes, and only then
`undoManager.save()` runs; result is (final scene, committed snapshot). -/
def completeGenerateAi (scene : List Entity) (phIdx : ℕ) (bytes : String)
    (imgW imgH : ℚ) : List Entity × List Entity :=
  ((updateAt (applyResize imgW imgH) (updateAt (assignBytes bytes) scene phIdx) phIdx),
   (updateAt (applyResize imgW imgH) (updateAt (assignBytes bytes) scene phIdx) phIdx))

/-- src/unnamed/part_000 success path (lines 250-262): `onComplete` assigns the
bytes and immediately calls `undoManager.save()`; this variant has no
decode/resize step at all. -/
def completeGeneratePart0 (scene : List Entity) (phIdx : ℕ) (bytes : String) :
    List Entity × List Entity :=
  (updateAt (assignBytes bytes) scene phIdx, updateAt (assignBytes bytes) scene phIdx)

lemma keepNotInAux_subset {S : List ℕ} {l : List Entity} {k : ℕ} {e : Entity}
    (h : e ∈ keepNotInAux S l k) : e ∈ l := by
  induction l generalizing k with
  | nil => simpa [keepNotInAux] using h
  | cons a as ih =>
      rw [keepNotInAux] at h
      by_cases hk : k ∈ S
      · rw [if_pos hk] at h
        exact List.mem_cons_of_mem a (ih h)
      · rw [if_neg hk] at h
        rcases List.mem_cons.mp h with rfl | h
        · exact List.mem_cons_self _ _
        · exact List.mem_cons_of_mem a (ih h)

lemma updateAt_concat (f : Entity → Entity) (xs : List Entity) (x : Entity) :
    updateAt f (xs ++ [x]) xs.length = xs ++ [f x] := by
  induction xs with
  | nil => rfl
  | cons a as ih =>
      simp only [List.cons_append, List.length_cons, updateAt, List.getD_cons_succ,
        List.set_cons_succ] at ih ⊢
      exact congrArg (a :: ·) ih

lemma spliceAt_concat (xs : List Entity) (x : Entity) :
    spliceAt (xs ++ [x]) xs.length = xs := by
  induction xs with
  | nil => rfl
  | cons a as ih =>
      simp only [List.cons_append, List.length_cons, spliceAt, List.eraseIdx_cons_succ] at ih ⊢
      exact congrArg (a :: ·) ih

lemma updateAt_getD_self (f : Entity → Entity) (l : List Entity) (i : ℕ)
    (h : i < l.length) :
    (updateAt f l i).getD i defaultEntity = f (l.getD i defaultEntity) := by
  rw [updateAt, List.getD_eq_getElem _ _ (by simpa using h),
    List.getElem_set_self, List.getD_eq_getElem _ _ h]

/- ## Enlarge action (src/actions.js `CanvasActions.enlarge` lines 57-94) -/

/-- The y coordinates scanned by the bounding-box loop (enlarge uses the same
valid-id / regular-stroke selection as reflect). -/
def reflectYs (l : List Entity) (strokeIds : List ℤ) : List ℚ :=
  ((reflectIdxs l strokeIds).map fun i => ysOf (l.getD i defaultEntity)).flatten

/-- Bounding-box center `(centerX, centerY)` of the strokes to enlarge. -/
def enlargeCenter (l : List Entity) (strokeIds : List ℤ) : ℚ × ℚ :=
  ((listMin (reflectXs l strokeIds) + listMax (reflectXs l strokeIds)) / 2,
   (listMin (reflectYs l strokeIds) + listMax (reflectYs l strokeIds)) / 2)

/-- Enlarge one stroke in place: `scaleFactor = 1.5` around the common center. -/
def enlargeEntity (cx cy : ℚ) : Entity → Entity
  | .pen ps prs ts sel =>
      .pen (ps.map fun p => ⟨cx + (p.x - cx) * (3 / 2), cy + (p.y - cy) * (3 / 2)⟩)
        prs ts sel
  | .imageObject pos w h dat sel g f => .imageObject pos w h dat sel g f
  | .smartObject pos e b a sel => .smartObject pos e b a sel

/-- `CanvasActions.enlarge`: early-exit on empty selection, else scale every
selected stroke reference around the common center. -/
def enlargeAction (l : List Entity) (strokeIds : List ℤ) : List Entity :=
  if reflectIdxs l strokeIds = [] then l
  else (reflectIdxs l strokeIds).foldl
    (updateAt (enlargeEntity (enlargeCenter l strokeIds).1 (enlargeCenter l strokeIds).2)) l

/- ## Scaling of a selected group (src/unnamed/part_004
     `DrawingManager.scaleSelectedStrokes` lines 1819-1866) -/

/-- The center-accumulation loop of `scaleSelectedStrokes`: a selected image
object contributes its position once, a selected regular stroke every point;
`(sumX, sumY, count)`. -/
def selCenterData (l : List Entity) : ℚ × ℚ × ℕ :=
  l.foldl (fun acc e =>
    match e with
    | .imageObject pos _ _ _ true _ _ => (acc.1 + pos.x, acc.2.1 + pos.y, acc.2.2 + 1)
    | .pen ps _ _ true =>
        (acc.1 + (ps.map Point.x).sum, acc.2.1 + (ps.map Point.y).sum, acc.2.2 + ps.length)
    | _ => acc) (0, 0, 0)

/-- `scaleSelectedStrokes`: no-op when nothing selected contributes
(`count === 0`), otherwise scale every selected entity around the mean center —
image objects get their clamped dimensions, strokes their points mapped. -/
def scaleSelectedStrokes (l : List Entity) (scaleFactor : ℚ) : List Entity :=
  if (selCenterData l).2.2 = 0 then l
  else
    l.map fun e =>
      match e with
      | .imageObject pos w h dat true g f =>
          .imageObject pos (max minSize (min maxSize (w * scaleFactor)))
            (max minSize (min maxSize (h * scaleFactor))) dat true g f
      | .pen ps prs ts true =>
          .pen (ps.map fun p =>
            ⟨(selCenterData l).1 / ((selCenterData l).2.2 : ℚ) +
                (p.x - (selCenterData l).1 / ((selCenterData l).2.2 : ℚ)) * scaleFactor,
              (selCenterData l).2.1 / ((selCenterData l).2.2 : ℚ) +
                (p.y - (selCenterData l).2.1 / ((selCenterData l).2.2 : ℚ)) * scaleFactor⟩)
            prs ts true
      | e => e

/- ## The drawing flow and its parallel-array invariant (P1) -/

/-- P1 for a single entity: an ink stroke keeps `points`, `pressures` and
`tilts` at equal length. -/
def entityWF : Entity → Prop
  | .pen ps prs ts _ => ps.length = prs.length ∧ prs.length = ts.length
  | _ => True

def sceneWF (l : List Entity) : Prop := ∀ e ∈ l, entityWF e

/-- The drawing-flow state: the scene (`this.strokes`), the in-progress stroke
(`this.currentStroke`) and the undo history.  SimpleUndo is an external
library; its stored states are exactly the deep-copied scenes handed to
`save`, kept to a bounded depth of 20. -/
structure DrawState where
  strokes : List Entity
  currentStroke : Option Entity
  history : List (List Entity)

/-- `startDrawing` (src/unnamed/part_004 lines 1065-1076): a fresh stroke with
one point, one pressure, one tilt. -/
def startDrawing (s : DrawState) (p : Point) (pressure tiltX tiltY : ℚ) : DrawState :=
  { s with currentStroke := some (.pen [p] [pressure] [⟨tiltX, tiltY⟩] false) }

/-- The three parallel pushes of `continueDrawing` (lines 1078-1086). -/
def appendSample (p : Point) (pressure tiltX tiltY : ℚ) : Entity → Entity
  | .pen ps prs ts sel =>
      .pen (ps ++ [p]) (prs ++ [pressure]) (ts ++ [⟨tiltX, tiltY⟩]) sel
  | e => e

/-- `continueDrawing`: `if (!this.currentStroke) return`, else push the sample. -/
def continueDrawing (s : DrawState) (p : Point) (pressure tiltX tiltY : ℚ) : DrawState :=
  match s.currentStroke with
  | none => s
  | some st => { s with currentStroke := some (appendSample p pressure tiltX tiltY st) }

/-- `undoManager.save()`: push a deep copy of the scene; `maxLength: 20`. -/
def saveUndo (s : DrawState) : DrawState :=
  { s with history := (s.strokes :: s.history).take 20 }

/-- `finishDrawing` (lines 1088-1096): commit the current stroke and snapshot. -/
def finishDrawing (s : DrawState) : DrawState :=
  match s.currentStroke with
  | none => { s with currentStroke := none }
  | some st => saveUndo { s with strokes := s.strokes ++ [st], currentStroke := none }

/-- `undoManager.undo(cb)` wiring (lines 911-916): the callback replaces the
scene with a stored snapshot (`restoredStrokes || []`); `i` selects which
stored state the library returns (over-approximating its position pointer;
an out-of-range `i` models the `|| []` fallback). -/
def undoRestore (s : DrawState) (i : ℕ) : DrawState :=
  { s with strokes := s.history.getD i [] }

/-- One reachability relation over the operations the claim names: the drawing
flow, dragging, group scaling, reflect/enlarge, deletion, clear, undo. -/
inductive Reachable : DrawState → Prop where
  | init : Reachable ⟨[], none, []⟩
  | startDraw {s} (p : Point) (pr tx ty : ℚ) :
      Reachable s → Reachable (startDrawing s p pr tx ty)
  | contDraw {s} (p : Point) (pr tx ty : ℚ) :
      Reachable s → Reachable (continueDrawing s p pr tx ty)
  | finishDraw {s} : Reachable s → Reachable (finishDrawing s)
  | dragMove {s} (dragged : List ℕ) (off pt : Point) :
      Reachable s → Reachable { s with strokes := continueDragging s.strokes dragged off pt }
  | dragFinish {s} (dragged : List ℕ) (sel : Option ℕ) :
      Reachable s → Reachable { s with strokes := finishDragging s.strokes dragged sel }
  | lassoFinish {s} (poly : List Point) :
      Reachable s → Reachable { s with strokes := finishLassoSelection s.strokes poly }
  | scaleSel {s} (factor : ℚ) :
      Reachable s → Reachable { s with strokes := scaleSelectedStrokes s.strokes factor }
  | scaleEnd {s} : Reachable s → Reachable (saveUndo s)
  | reflect {s} (ids : List ℤ) :
      Reachable s →
        Reachable (if reflectIdxs s.strokes ids = [] then s
          else saveUndo { s with strokes := reflectAction s.strokes ids })
  | enlarge {s} (ids : List ℤ) :
      Reachable s →
        Reachable (if reflectIdxs s.strokes ids = [] then s
          else saveUndo { s with strokes := enlargeAction s.strokes ids })
  | delete {s} (ids : List ℤ) :
      Reachable s → Reachable (saveUndo { s with strokes := canvasDelete s.strokes ids })
  | clear {s} :
      Reachable s → Reachable (saveUndo { s with strokes := [], currentStroke := none })
  | undo {s} (i : ℕ) : Reachable s → Reachable (undoRestore s i)

/-- The whole-state invariant: scene, in-progress stroke and every stored
snapshot satisfy P1. -/
def stateWF (s : DrawState) : Prop :=
  sceneWF s.strokes ∧ (∀ st, s.currentStroke = some st → entityWF st) ∧
    ∀ snap ∈ s.history, sceneWF snap

lemma entityWF_default : entityWF defaultEntity := ⟨rfl, rfl⟩

lemma entityWF_translate (dx dy : ℚ) (e : Entity) (h : entityWF e) :
    entityWF (translateEntity dx dy e) := by
  cases e <;> simpa [translateEntity, entityWF] using h

lemma entityWF_setSelected (e : Entity) (h : entityWF e) :
    entityWF e.setSelected := by
  cases e <;> simpa [Entity.setSelected, entityWF] using h

lemma entityWF_reflect (c : ℚ) (e : Entity) (h : entityWF e) :
    entityWF (reflectEntity c e) := by
  cases e <;> simpa [reflectEntity, entityWF] using h

lemma entityWF_enlarge (cx cy : ℚ) (e : Entity) (h : entityWF e) :
    entityWF (enlargeEntity cx cy e) := by
  cases e <;> simpa [enlargeEntity, entityWF] using h

lemma entityWF_appendSample (p : Point) (pr tx ty : ℚ) (e : Entity)
    (h : entityWF e) : entityWF (appendSample p pr tx ty e) := by
  cases e <;> simp_all [appendSample, entityWF]

lemma sceneWF_updateAt {f : Entity → Entity}
    (hf : ∀ e, entityWF e → entityWF (f e)) (l : List Entity) (i : ℕ)
    (h : sceneWF l) : sceneWF (updateAt f l i) := by
  intro e he
  rcases List.mem_or_eq_of_mem_set he with h1 | h1
  · exact h e h1
  · subst h1
    apply hf
    by_cases hlt : i < l.length
    · rw [List.getD_eq_getElem _ _ hlt]
      exact h _ (List.getElem_mem hlt)
    · rw [List.getD_eq_default _ _ (Nat.le_of_not_lt hlt)]
      exact entityWF_default

lemma sceneWF_foldl_updateAt {f : Entity → Entity}
    (hf : ∀ e, entityWF e → entityWF (f e)) (S : List ℕ) {l : List Entity}
    (h : sceneWF l) : sceneWF (S.foldl (updateAt f) l) := by
  induction S generalizing l with
  | nil => exact h
  | cons i rest ih =>
      rw [List.foldl_cons]
      exact ih (sceneWF_updateAt hf l i h)

lemma deleteLoop_sublist (ids : List ℤ) :
    ∀ l : List Entity, (deleteLoop l ids).Sublist l := by
  induction ids with
  | nil => intro l; exact List.Sublist.refl l
  | cons i rest ih =>
      intro l
      rw [deleteLoop]
      by_cases hok : 0 ≤ i ∧ i < (l.length : ℤ)
      · rw [if_pos hok]
        exact (ih _).trans (List.eraseIdx_sublist l i.toNat)
      · rw [if_neg hok]
        exact ih l

lemma sceneWF_canvasDelete (l : List Entity) (ids : List ℤ) (h : sceneWF l) :
    sceneWF (canvasDelete l ids) := fun e he =>
  h e ((deleteLoop_sublist (sortDesc ids) l).mem he)

lemma sceneWF_scaleSelected (l : List Entity) (factor : ℚ) (h : sceneWF l) :
    sceneWF (scaleSelectedStrokes l factor) := by
  unfold scaleSelectedStrokes
  by_cases hz : (selCenterData l).2.2 = 0
  · rw [if_pos hz]; exact h
  · rw [if_neg hz]
    intro e he
    rcases List.mem_map.mp he with ⟨e0, he0, rfl⟩
    have hwf := h e0 he0
    cases e0 with
    | pen ps prs ts sel => cases sel <;> simp_all [entityWF]
    | imageObject pos w hh dat sel g f => cases sel <;> simp_all [entityWF]
    | smartObject pos em b a sel => simp_all [entityWF]

lemma sceneWF_finishLasso (l : List Entity) (poly : List Point) (h : sceneWF l) :
    sceneWF (finishLassoSelection l poly) := by
  unfold finishLassoSelection
  by_cases h3 : 2 < poly.length
  · rw [if_pos h3]
    intro e he
    rcases List.mem_map.mp he with ⟨e0, he0, rfl⟩
    by_cases hin : entityInLasso poly e0
    · rw [if_pos hin]
      exact entityWF_setSelected e0 (h e0 he0)
    · rw [if_neg hin]
      exact h e0 he0
  · rw [if_neg h3]; exact h

lemma sceneWF_reflectAction (l : List Entity) (ids : List ℤ) (h : sceneWF l) :
    sceneWF (reflectAction l ids) := by
  unfold reflectAction
  by_cases he : reflectIdxs l ids = []
  · rw [if_pos he]; exact h
  · rw [if_neg he]
    exact sceneWF_foldl_updateAt (entityWF_reflect _) _ h

lemma sceneWF_enlargeAction (l : List Entity) (ids : List ℤ) (h : sceneWF l) :
    sceneWF (enlargeAction l ids) := by
  unfold enlargeAction
  by_cases he : reflectIdxs l ids = []
  · rw [if_pos he]; exact h
  · rw [if_neg he]
    exact sceneWF_foldl_updateAt (entityWF_enlarge _ _) _ h

lemma stateWF_saveUndo (s : DrawState) (h : stateWF s) : stateWF (saveUndo s) := by
  refine ⟨h.1, h.2.1, ?_⟩
  intro snap hs
  rcases List.mem_cons.mp (List.mem_of_mem_take hs) with rfl | hs2
  · exact h.1
  · exact h.2.2 snap hs2

lemma stateWF_startDrawing (s : DrawState) (p : Point) (pr tx ty : ℚ)
    (h : stateWF s) : stateWF (startDrawing s p pr tx ty) := by
  refine ⟨h.1, ?_, h.2.2⟩
  intro st hst
  injection hst with he
  subst he
  exact ⟨rfl, rfl⟩

lemma stateWF_continueDrawing (s : DrawState) (p : Point) (pr tx ty : ℚ)
    (h : stateWF s) : stateWF (continueDrawing s p pr tx ty) := by
  cases hc : s.currentStroke with
  | none => simpa [continueDrawing, hc] using h
  | some st =>
      simp only [continueDrawing, hc]
      refine ⟨h.1, ?_, h.2.2⟩
      intro st2 hst2
      injection hst2 with he
      subst he
      exact entityWF_appendSample p pr tx ty st (h.2.1 st hc)

lemma stateWF_finishDrawing (s : DrawState) (h : stateWF s) :
    stateWF (finishDrawing s) := by
  cases hc : s.currentStroke with
  | none =>
      simp only [finishDrawing, hc]
      exact ⟨h.1, fun st hst => by simp at hst, h.2.2⟩
  | some st =>
      simp only [finishDrawing, hc]
      apply stateWF_saveUndo
      refine ⟨?_, fun st2 hst2 => by simp at hst2, h.2.2⟩
      intro e he
      rcases List.mem_append.mp he with h1 | h1
      · exact h.1 e h1
      · rw [List.mem_singleton.mp h1]
        exact h.2.1 st hc

lemma stateWF_undoRestore (s : DrawState) (i : ℕ) (h : stateWF s) :
    stateWF (undoRestore s i) := by
  refine ⟨?_, h.2.1, h.2.2⟩
  by_cases hlt : i < s.history.length
  · intro e he
    rw [show (undoRestore s i).strokes = s.history.getD i [] from rfl,
      List.getD_eq_getElem _ _ hlt] at he
    exact h.2.2 _ (List.getElem_mem hlt) e he
  · intro e he
    rw [show (undoRestore s i).strokes = s.history.getD i [] from rfl,
      List.getD_eq_default _ _ (Nat.le_of_not_lt hlt)] at he
    exact absurd he (List.not_mem_nil e)

lemma sceneWF_finishDragging (l : List Entity) (dragged : List ℕ)
    (sel : Option ℕ) (h : sceneWF l) : sceneWF (finishDragging l dragged sel) := by
  unfold finishDragging
  by_cases h1 : 1 < dragged.length
  · rw [if_pos h1]
    exact sceneWF_foldl_updateAt entityWF_setSelected dragged h
  · rw [if_neg h1]
    cases sel with
    | none => exact h
    | some i => exact sceneWF_updateAt entityWF_setSelected l i h

/- ## Theorems -/

/-- C8: for every pinch gesture on an image object, whatever the ratio of
current to initial pinch distance, the width and height produced by
`handleScaleMove` lie within `[minSize, maxSize]` = [50, 1000]. -/
theorem scaleMove_within_bounds (sd cd w h : ℚ) :
    minSize ≤ (handleScaleMoveImage sd cd w h).1 ∧
      (handleScaleMoveImage sd cd w h).1 ≤ maxSize ∧
      minSize ≤ (handleScaleMoveImage sd cd w h).2 ∧
      (handleScaleMoveImage sd cd w h).2 ≤ maxSize := by
  refine ⟨le_max_left _ _, ?_, le_max_left _ _, ?_⟩ <;>
    exact max_le (by norm_num [minSize, maxSize]) (min_le_left _ _)

/-- C9: when the classification response content fails to parse as JSON, the
classify step returns the hardcoded default result (fixed emoji/behavior in the
smart-object variant; fixed action/prompt/description in the image variant)
instead of propagating the parse error. -/
theorem classify_parse_fallback (ps : String → Option SmartResult)
    (pa : String → Option ActionResult) (content : String)
    (hs : ps content = none) (ha : pa content = none) :
    analyzeDrawingResult ps content = defaultSmartResult ∧
      analyzeActionResult pa content = defaultActionResult := by
  constructor
  · simp [analyzeDrawingResult, hs]
  · simp [analyzeActionResult, ha]

/-- C4: for every stroke produced by the drawing flow, the three parallel
arrays satisfy `points.length = pressures.length = tilts.length` at every
reachable intermediate state — through pen-down, pen-move, pen-up, dragging,
group scaling, reflect/enlarge, deletion, clear and undo save/restore — for
the live scene, the in-progress stroke, and every stored undo snapshot. -/
theorem stroke_parallel_arrays_invariant (s : DrawState) (h : Reachable s) :
    stateWF s := by
  induction h with
  | init =>
      exact ⟨fun e he => absurd he (List.not_mem_nil e),
        fun st hst => by simp at hst,
        fun snap hs => absurd hs (List.not_mem_nil snap)⟩
  | startDraw p pr tx ty _ ih => exact stateWF_startDrawing _ p pr tx ty ih
  | contDraw p pr tx ty _ ih => exact stateWF_continueDrawing _ p pr tx ty ih
  | finishDraw _ ih => exact stateWF_finishDrawing _ ih
  | dragMove dragged off pt _ ih =>
      exact ⟨sceneWF_foldl_updateAt (entityWF_translate _ _) dragged ih.1, ih.2.1, ih.2.2⟩
  | dragFinish dragged sel _ ih =>
      exact ⟨sceneWF_finishDragging _ dragged sel ih.1, ih.2.1, ih.2.2⟩
  | lassoFinish poly _ ih =>
      exact ⟨sceneWF_finishLasso _ poly ih.1, ih.2.1, ih.2.2⟩
  | scaleSel factor _ ih =>
      exact ⟨sceneWF_scaleSelected _ factor ih.1, ih.2.1, ih.2.2⟩
  | scaleEnd _ ih => exact stateWF_saveUndo _ ih
  | reflect ids _ ih =>
      split
      · exact ih
      · exact stateWF_saveUndo _ ⟨sceneWF_reflectAction _ ids ih.1, ih.2.1, ih.2.2⟩
  | enlarge ids _ ih =>
      split
      · exact ih
      · exact stateWF_saveUndo _ ⟨sceneWF_enlargeAction _ ids ih.1, ih.2.1, ih.2.2⟩
  | delete ids _ ih =>
      exact stateWF_saveUndo _ ⟨sceneWF_canvasDelete _ ids ih.1, ih.2.1, ih.2.2⟩
  | clear _ ih =>
      exact stateWF_saveUndo _ ⟨fun e he => absurd he (List.not_mem_nil e),
        fun st hst => by simp at hst, ih.2.2⟩
  | undo i _ ih => exact stateWF_undoRestore _ i ih

/-- Witness for C4: a two-sample stroke drawn and committed from the initial
state satisfies the invariant at the committed state. -/
theorem stroke_parallel_arrays_invariant_witness :
    stateWF (finishDrawing (continueDrawing
      (startDrawing ⟨[], none, []⟩ ⟨10, 10⟩ (4/5) 0 0) ⟨20, 10⟩ (4/5) 0 0)) :=
  stroke_parallel_arrays_invariant _
    (Reachable.finishDraw (Reachable.contDraw _ _ _ _
      (Reachable.startDraw _ _ _ _ Reachable.init)))

/-- C1: dispatching a Generate action removes the group's ink strokes from the
scene and inserts exactly one placeholder image object with
`isGenerating = true` and null bytes (it is the only generating entity when
nothing else was generating); if the external call succeeds, exactly that
object ends with `isGenerating = false` and non-null bytes while the remainder
of the scene is exactly the post-dispatch scene; if the call raises, the
placeholder is absent — the final scene is exactly the cleaned scene. -/
theorem generate_placeholder_lifecycle (l : List Entity) (dragged : List ℕ)
    (cw ch : ℚ) (bytes : String) (imgW imgH : ℚ)
    (hg : ∀ e ∈ l, e.isGeneratingFlag = false) :
    ((dispatchGenerate l dragged cw ch).getLast? = some (placeholderObj cw ch) ∧
      (placeholderObj cw ch).isGeneratingFlag = true ∧
      (placeholderObj cw ch).imageDataOf = none) ∧
      (dispatchGenerate l dragged cw ch).countP (·.isGeneratingFlag) = 1 ∧
      (generateNewImage l dragged cw ch (.success bytes imgW imgH) =
          keepNotInAux (draggedPenIdxs l dragged) l 0 ++
            [applyGenerated bytes imgW imgH (placeholderObj cw ch)] ∧
        (applyGenerated bytes imgW imgH (placeholderObj cw ch)).isGeneratingFlag = false ∧
        (applyGenerated bytes imgW imgH (placeholderObj cw ch)).imageDataOf = some bytes) ∧
      (generateNewImage l dragged cw ch .failure =
          keepNotInAux (draggedPenIdxs l dragged) l 0 ∧
        (generateNewImage l dragged cw ch .failure).countP (·.isGeneratingFlag) = 0) := by
  have hclean : ∀ e ∈ keepNotInAux (draggedPenIdxs l dragged) l 0,
      e.isGeneratingFlag = false := fun e he => hg e (keepNotInAux_subset he)
  have hcount0 :
      (keepNotInAux (draggedPenIdxs l dragged) l 0).countP (·.isGeneratingFlag) = 0 :=
    List.countP_eq_zero.mpr (by simpa using hclean)
  have hlen : (dispatchGenerate l dragged cw ch).length =
      (keepNotInAux (draggedPenIdxs l dragged) l 0).length + 1 := by
    rw [dispatchGenerate, List.length_append, List.length_cons, List.length_nil]
  refine ⟨⟨?_, rfl, rfl⟩, ?_, ⟨?_, rfl, rfl⟩, ?_, ?_⟩
  · rw [dispatchGenerate, List.getLast?_concat]
  · rw [dispatchGenerate, List.countP_append, hcount0]
    rfl
  · rw [generateNewImage, hlen, Nat.add_sub_cancel, dispatchGenerate, updateAt_concat]
  · rw [generateNewImage, hlen, Nat.add_sub_cancel, dispatchGenerate, spliceAt_concat]
  · rw [generateNewImage, hlen, Nat.add_sub_cancel, dispatchGenerate, spliceAt_concat,
      hcount0]

/-- Witness for C1: a one-stroke drag group over a two-entity scene;
the failure path leaves exactly the untouched image object. -/
theorem generate_placeholder_lifecycle_witness :
    (dispatchGenerate
        [Entity.pen [⟨1, 1⟩] [1] [⟨0, 0⟩] false,
         Entity.imageObject ⟨10, 10⟩ 512 512 (some "old") false false 0] [0]
        800 600).countP (·.isGeneratingFlag) = 1 ∧
      generateNewImage
        [Entity.pen [⟨1, 1⟩] [1] [⟨0, 0⟩] false,
         Entity.imageObject ⟨10, 10⟩ 512 512 (some "old") false false 0] [0]
        800 600 .failure =
      [Entity.imageObject ⟨10, 10⟩ 512 512 (some "old") false false 0] := by
  have h := generate_placeholder_lifecycle
    [Entity.pen [⟨1, 1⟩] [1] [⟨0, 0⟩] false,
     Entity.imageObject ⟨10, 10⟩ 512 512 (some "old") false false 0] [0]
    800 600 "b" 100 50 (by decide)
  refine ⟨h.2.1, ?_⟩
  rw [h.2.2.2.1]
  decide

/-- C2 counterexample: the success callback of `generateNewImage` runs with its
captured placeholder absent from the scene (scene store empty) and still
mutates the captured object and commits the snapshot — so the claim that every
completion re-derives its target's presence before mutating is false. -/
theorem completion_guard_counterexample :
    placeholderObj 100 100 ∉ ([] : List Entity) ∧
      (genOnComplete [] (placeholderObj 100 100) "b" 100 50).1 ≠ placeholderObj 100 100 ∧
      (genOnComplete [] (placeholderObj 100 100) "b" 100 50).2 = true := by
  refine ⟨List.not_mem_nil _, ?_, rfl⟩
  simp [genOnComplete, applyGenerated, assignBytes, applyResize, placeholderObj]

/-- C2 amended: the completion callbacks of the generation and edit calls are
unguarded: their effect is independent of the scene store (no presence
re-derivation happens), the snapshot commit is unconditional, and whenever the
captured object is still flagged generating, the callback mutates it — also
when the target was removed from the scene between dispatch and completion. -/
theorem completion_mutates_unconditionally (scene scene2 : List Entity)
    (captured : Entity) (bytes : String) (imgW imgH : ℚ)
    (hgen : captured.isGeneratingFlag = true) :
    genOnComplete scene captured bytes imgW imgH =
        genOnComplete scene2 captured bytes imgW imgH ∧
      (genOnComplete scene captured bytes imgW imgH).1 ≠ captured ∧
      (genOnComplete scene captured bytes imgW imgH).2 = true := by
  refine ⟨rfl, ?_, rfl⟩
  cases captured with
  | imageObject pos w h dat sel g f =>
      simp only [Entity.isGeneratingFlag] at hgen
      subst hgen
      simp [genOnComplete, applyGenerated, assignBytes, applyResize]
  | pen ps prs ts sel => simp [Entity.isGeneratingFlag] at hgen
  | smartObject pos em b a sel => simp [Entity.isGeneratingFlag] at hgen

/-- Witness for the C2 amended theorem at a removed-target state. -/
theorem completion_mutates_unconditionally_witness :
    (genOnComplete [] (placeholderObj 200 200) "b" 100 50).1 ≠ placeholderObj 200 200 :=
  (completion_mutates_unconditionally [] [placeholderObj 200 200] (placeholderObj 200 200)
    "b" 100 50 rfl).2.1

/-- C5 counterexample: in the src/unnamed/part_000 variant the undo snapshot is
committed inside `onComplete` itself with no decode step; with a decoded aspect
ratio of 2:1 the dimensions recomputed per the claim would be 512x256, but the
committed snapshot keeps the placeholder's 512x512. -/
theorem snapshot_dims_counterexample :
    ((completeGeneratePart0 [placeholderObj 800 600] 0 "b").2.getD 0
        defaultEntity).heightOf = 512 ∧
      (resizeDims 100 50).2 = 256 ∧
      ((completeGeneratePart0 [placeholderObj 800 600] 0 "b").2.getD 0
        defaultEntity).heightOf ≠ (resizeDims 100 50).2 := by
  have h1 : ((completeGeneratePart0 [placeholderObj 800 600] 0 "b").2.getD 0
      defaultEntity).heightOf = 512 := by
    simp [completeGeneratePart0, updateAt, placeholderObj, assignBytes, Entity.heightOf,
      List.set, List.getD]
  have h2 : (resizeDims 100 50).2 = 256 := by
    norm_num [resizeDims, genMaxSize]
  refine ⟨h1, h2, ?_⟩
  rw [h1, h2]
  norm_num

/-- C5 amended: in the src/ai.js variant (`generateNewImage` and
`updateExistingImage`) the decode-and-resize runs before `undoManager.save()`,
so the committed snapshot records the dimensions recomputed from the decoded
aspect ratio; in the src/unnamed/part_000 variant the snapshot is committed
directly in `onComplete` without any decode/resize, so it records the
dimensions the object had before completion (the 512x512 placeholder
dimensions for a fresh generation). -/
theorem decode_resize_before_save (scene : List Entity) (phIdx : ℕ)
    (bytes : String) (imgW imgH : ℚ) (hlt : phIdx < scene.length)
    (him : (scene.getD phIdx defaultEntity).isImage = true) :
    (((completeGenerateAi scene phIdx bytes imgW imgH).2.getD phIdx
        defaultEntity).widthOf = (resizeDims imgW imgH).1 ∧
      ((completeGenerateAi scene phIdx bytes imgW imgH).2.getD phIdx
        defaultEntity).heightOf = (resizeDims imgW imgH).2) ∧
      ((completeGeneratePart0 scene phIdx bytes).2.getD phIdx
          defaultEntity).widthOf = (scene.getD phIdx defaultEntity).widthOf ∧
      ((completeGeneratePart0 scene phIdx bytes).2.getD phIdx
        defaultEntity).heightOf = (scene.getD phIdx defaultEntity).heightOf := by
  have hlt2 : phIdx < (updateAt (assignBytes bytes) scene phIdx).length := by
    simpa [updateAt] using hlt
  have hai : (completeGenerateAi scene phIdx bytes imgW imgH).2.getD phIdx defaultEntity =
      applyResize imgW imgH (assignBytes bytes (scene.getD phIdx defaultEntity)) := by
    rw [completeGenerateAi, updateAt_getD_self _ _ _ hlt2, updateAt_getD_self _ _ _ hlt]
  have hp0 : (completeGeneratePart0 scene phIdx bytes).2.getD phIdx defaultEntity =
      assignBytes bytes (scene.getD phIdx defaultEntity) := by
    rw [completeGeneratePart0, updateAt_getD_self _ _ _ hlt]
  rw [hai, hp0]
  cases he : scene.getD phIdx defaultEntity with
  | imageObject pos w h dat sel g f =>
      simp [assignBytes, applyResize, Entity.widthOf, Entity.heightOf]
  | pen ps prs ts sel => rw [he] at him; simp [Entity.isImage] at him
  | smartObject pos em b a sel => rw [he] at him; simp [Entity.isImage] at him

/-- Witness for the C5 amended theorem at a concrete 2:1 decode: the ai.js
snapshot records 512x256, the part_000 snapshot keeps 512x512. -/
theorem decode_resize_before_save_witness :
    ((completeGenerateAi [placeholderObj 800 600] 0 "b" 100 50).2.getD 0
        defaultEntity).heightOf = (resizeDims 100 50).2 ∧
      ((completeGeneratePart0 [placeholderObj 800 600] 0 "b").2.getD 0
        defaultEntity).heightOf = 512 := by
  have h := decode_resize_before_save [placeholderObj 800 600] 0 "b" 100 50
    (by decide) (by decide)
  refine ⟨h.1.2, ?_⟩
  rw [h.2.2]
  simp [placeholderObj, Entity.heightOf, List.getD]

/-- C10: the reflect action is an involution on stroke geometry: a single
application maps each affected point's x to `2 * centerX - x` (centerX being
the bounding-box center over all affected strokes' points) and leaves every y
unchanged, the bounding-box center is preserved by the application, and
applying reflect twice with the same valid stroke indices restores every
affected stroke's points to their original coordinates (the whole scene). -/
theorem reflect_involution (l : List Entity) (ids : List ℤ) (hN : ids.Nodup) :
    (∀ j : ℕ,
        (reflectAction l ids)[j]? =
          if j ∈ reflectIdxs l ids
          then (l[j]?).map (reflectEntity (reflectCenterX l ids)) else l[j]?) ∧
      (∀ e : Entity,
        xsOf (reflectEntity (reflectCenterX l ids) e) =
            (xsOf e).map (fun x => 2 * reflectCenterX l ids - x) ∧
          ysOf (reflectEntity (reflectCenterX l ids) e) = ysOf e) ∧
      reflectCenterX (reflectAction l ids) ids = reflectCenterX l ids ∧
      reflectAction (reflectAction l ids) ids = l := by
  refine ⟨reflectAction_getElem? l ids hN, ?_,
    reflectCenterX_reflectAction l ids hN, reflectAction_involutive l ids hN⟩
  intro e
  constructor
  · rw [xsOf_reflectEntity]
    exact List.map_congr_left fun x _ => by ring
  · exact ysOf_reflectEntity _ e

/-- Witness for C10: two strokes with x-range `[0, 4]` (center 2); reflecting
twice restores them, and one application sends `x` to `4 - x`. -/
theorem reflect_involution_witness :
    reflectAction (reflectAction
        [Entity.pen [⟨0, 0⟩, ⟨2, 1⟩] [1, 1] [⟨0, 0⟩, ⟨0, 0⟩] false,
         Entity.pen [⟨4, 2⟩] [1] [⟨0, 0⟩] false] [0, 1]) [0, 1] =
      [Entity.pen [⟨0, 0⟩, ⟨2, 1⟩] [1, 1] [⟨0, 0⟩, ⟨0, 0⟩] false,
       Entity.pen [⟨4, 2⟩] [1] [⟨0, 0⟩] false] ∧
      reflectCenterX
        [Entity.pen [⟨0, 0⟩, ⟨2, 1⟩] [1, 1] [⟨0, 0⟩, ⟨0, 0⟩] false,
         Entity.pen [⟨4, 2⟩] [1] [⟨0, 0⟩] false] [0, 1] = 2 ∧
      (reflectAction
        [Entity.pen [⟨0, 0⟩, ⟨2, 1⟩] [1, 1] [⟨0, 0⟩, ⟨0, 0⟩] false,
         Entity.pen [⟨4, 2⟩] [1] [⟨0, 0⟩] false] [0, 1])[0]? =
        some (Entity.pen [⟨4, 0⟩, ⟨2, 1⟩] [1, 1] [⟨0, 0⟩, ⟨0, 0⟩] false) := by
  have h := reflect_involution
    [Entity.pen [⟨0, 0⟩, ⟨2, 1⟩] [1, 1] [⟨0, 0⟩, ⟨0, 0⟩] false,
     Entity.pen [⟨4, 2⟩] [1] [⟨0, 0⟩] false] [0, 1] (by decide)
  have hc : reflectCenterX
      [Entity.pen [⟨0, 0⟩, ⟨2, 1⟩] [1, 1] [⟨0, 0⟩, ⟨0, 0⟩] false,
       Entity.pen [⟨4, 2⟩] [1] [⟨0, 0⟩] false] [0, 1] = 2 := by
    norm_num [reflectCenterX, reflectXs, reflectIdxs, validIdx, listMin, listMax,
      xsOf, Entity.isPen, defaultEntity, List.filter]
  refine ⟨h.2.2.2, hc, ?_⟩
  rw [h.1 0, hc]
  norm_num [reflectIdxs, validIdx, reflectEntity, Entity.isPen, defaultEntity, List.filter]

/-- C3: deleting by a captured set of indices removes exactly the entities that
were at those indices in the original scene; the result is independent of the
order the indices are supplied in (the operation sorts them descending
internally); and out-of-range indices are silently ignored without affecting
the other removals. -/
theorem delete_by_captured_set (l : List Entity) (ids ids2 : List ℤ)
    (hN : ids.Nodup) (hperm : ids2.Perm ids) :
    canvasDelete l ids = removeCaptured l ids ∧
      canvasDelete l ids2 = canvasDelete l ids ∧
      canvasDelete l ids =
        canvasDelete l (ids.filter fun i => decide (0 ≤ i) && decide (i < (l.length : ℤ))) := by
  refine ⟨canvasDelete_eq_removeCaptured l ids hN, ?_, ?_⟩
  · rw [canvasDelete, canvasDelete]
    congr 1
    exact List.eq_of_perm_of_sorted
      ((sortDesc_perm ids2).trans (hperm.trans (sortDesc_perm ids).symm))
      (sortDesc_sorted ids2) (sortDesc_sorted ids)
  · rw [canvasDelete_eq_removeCaptured l ids hN,
      canvasDelete_eq_removeCaptured l _ (hN.filter _)]
    unfold removeCaptured
    apply removeCapturedAux_congr
    intro m _ hm
    simp only [Nat.zero_add] at hm
    simp only [List.mem_filter, Bool.and_eq_true, decide_eq_true_eq]
    constructor
    · intro h
      exact ⟨h, by omega, by omega⟩
    · rintro ⟨h, -, -⟩
      exact h

/-- Witness for C3: a five-entity scene, deleting `[1, 3]` equals deleting
`[3, 1]` and removes exactly the entities at original indices 1 and 3. -/
theorem delete_by_captured_set_witness :
    canvasDelete
        [Entity.pen [⟨0, 0⟩] [1] [⟨0, 0⟩] false, Entity.pen [⟨1, 0⟩] [1] [⟨0, 0⟩] false,
         Entity.pen [⟨2, 0⟩] [1] [⟨0, 0⟩] false, Entity.pen [⟨3, 0⟩] [1] [⟨0, 0⟩] false,
         Entity.pen [⟨4, 0⟩] [1] [⟨0, 0⟩] false] [1, 3] =
      removeCaptured
        [Entity.pen [⟨0, 0⟩] [1] [⟨0, 0⟩] false, Entity.pen [⟨1, 0⟩] [1] [⟨0, 0⟩] false,
         Entity.pen [⟨2, 0⟩] [1] [⟨0, 0⟩] false, Entity.pen [⟨3, 0⟩] [1] [⟨0, 0⟩] false,
         Entity.pen [⟨4, 0⟩] [1] [⟨0, 0⟩] false] [1, 3] ∧
      canvasDelete
        [Entity.pen [⟨0, 0⟩] [1] [⟨0, 0⟩] false, Entity.pen [⟨1, 0⟩] [1] [⟨0, 0⟩] false,
         Entity.pen [⟨2, 0⟩] [1] [⟨0, 0⟩] false, Entity.pen [⟨3, 0⟩] [1] [⟨0, 0⟩] false,
         Entity.pen [⟨4, 0⟩] [1] [⟨0, 0⟩] false] [3, 1] =
      canvasDelete
        [Entity.pen [⟨0, 0⟩] [1] [⟨0, 0⟩] false, Entity.pen [⟨1, 0⟩] [1] [⟨0, 0⟩] false,
         Entity.pen [⟨2, 0⟩] [1] [⟨0, 0⟩] false, Entity.pen [⟨3, 0⟩] [1] [⟨0, 0⟩] false,
         Entity.pen [⟨4, 0⟩] [1] [⟨0, 0⟩] false] [1, 3] ∧
      canvasDelete
        [Entity.pen [⟨0, 0⟩] [1] [⟨0, 0⟩] false, Entity.pen [⟨1, 0⟩] [1] [⟨0, 0⟩] false,
         Entity.pen [⟨2, 0⟩] [1] [⟨0, 0⟩] false, Entity.pen [⟨3, 0⟩] [1] [⟨0, 0⟩] false,
         Entity.pen [⟨4, 0⟩] [1] [⟨0, 0⟩] false] [1, 3] =
      [Entity.pen [⟨0, 0⟩] [1] [⟨0, 0⟩] false, Entity.pen [⟨2, 0⟩] [1] [⟨0, 0⟩] false,
       Entity.pen [⟨4, 0⟩] [1] [⟨0, 0⟩] false] := by
  have h := delete_by_captured_set
    [Entity.pen [⟨0, 0⟩] [1] [⟨0, 0⟩] false, Entity.pen [⟨1, 0⟩] [1] [⟨0, 0⟩] false,
     Entity.pen [⟨2, 0⟩] [1] [⟨0, 0⟩] false, Entity.pen [⟨3, 0⟩] [1] [⟨0, 0⟩] false,
     Entity.pen [⟨4, 0⟩] [1] [⟨0, 0⟩] false] [1, 3] [3, 1] (by decide) (by decide)
  exact ⟨h.1, h.2.1, by decide⟩

/-- C7: completing a lasso gesture whose path has at least 3 points selects
exactly the entities with at least one point (ink) or center (image / smart,
each in its build variant) inside the closed path under even-odd ray casting:
membership in the found set is equivalent to the spec predicate, an entity with
no point and no center inside is not selected in either variant, a square lasso
strictly containing all points of a stroke selects it, and the found entities
(and only they) get `selected = true`. -/
theorem lasso_selects_contained (strokes : List Entity) (poly : List Point)
    (a b c d : ℚ) (ps : List Point) (prs : List ℚ) (ts : List Point) (selFlag : Bool)
    (hne : ps ≠ []) (hin : ∀ q ∈ ps, a < q.x ∧ q.x < b ∧ c < q.y ∧ q.y < d) :
    (∀ e ∈ strokes, e.isSmart = false →
        (e ∈ findStrokesInLasso strokes poly ↔ lassoSpec poly e)) ∧
      (∀ e ∈ strokes, e.isImage = false →
        (e ∈ findStrokesInLassoSmart strokes poly ↔ lassoSpec poly e)) ∧
      (∀ e ∈ strokes, ¬ lassoSpec poly e →
        e ∉ findStrokesInLasso strokes poly ∧ e ∉ findStrokesInLassoSmart strokes poly) ∧
      entityInLasso [⟨a, c⟩, ⟨b, c⟩, ⟨b, d⟩, ⟨a, d⟩] (.pen ps prs ts selFlag) = true ∧
      (2 < poly.length →
        finishLassoSelection strokes poly =
          strokes.map fun s => if entityInLasso poly s then s.setSelected else s) := by
  refine ⟨?_, ?_, ?_, ?_, ?_⟩
  · intro e he _
    rw [findStrokesInLasso, List.mem_filter, and_iff_right he]
    cases e with
    | pen ps' prs' ts' s => simp [entityInLasso, lassoSpec]
    | imageObject pos w h dat s g f => simp [entityInLasso, lassoSpec]
    | smartObject pos em bh ac s => simp_all [Entity.isSmart]
  · intro e he _
    rw [findStrokesInLassoSmart, List.mem_filter, and_iff_right he]
    cases e with
    | pen ps' prs' ts' s => simp [entityInLassoSmart, lassoSpec]
    | imageObject pos w h dat s g f => simp_all [Entity.isImage]
    | smartObject pos em bh ac s => simp [entityInLassoSmart, lassoSpec]
  · intro e _ hns
    refine ⟨fun hf => hns ?_, fun hf => hns ?_⟩
    · have hmem := (List.mem_filter.mp hf).2
      cases e <;> simp_all [entityInLasso, lassoSpec]
    · have hmem := (List.mem_filter.mp hf).2
      cases e <;> simp_all [entityInLassoSmart, lassoSpec]
  · obtain ⟨q, hq⟩ := List.exists_mem_of_ne_nil ps hne
    obtain ⟨h1, h2, h3, h4⟩ := hin q hq
    rw [entityInLasso, List.any_eq_true]
    exact ⟨q, hq, isPointInPolygon_square a b c d q.x q.y h1 h2 h3 h4⟩
  · intro h3
    rw [finishLassoSelection, if_pos h3]

/-- Witness for C7: a unit stroke inside the square lasso `[0,10]²` is found;
an image object centered at `(20,20)` (outside) is not. -/
theorem lasso_selects_contained_witness :
    entityInLasso [⟨0, 0⟩, ⟨10, 0⟩, ⟨10, 10⟩, ⟨0, 10⟩]
        (.pen [⟨5, 5⟩, ⟨6, 7⟩] [1, 1] [⟨0, 0⟩, ⟨0, 0⟩] false) = true ∧
      Entity.imageObject ⟨20, 20⟩ 512 512 none false false 0 ∉
        findStrokesInLasso [Entity.imageObject ⟨20, 20⟩ 512 512 none false false 0]
          [⟨0, 0⟩, ⟨10, 0⟩, ⟨10, 10⟩, ⟨0, 10⟩] := by
  have h := lasso_selects_contained
    [Entity.imageObject ⟨20, 20⟩ 512 512 none false false 0]
    [⟨0, 0⟩, ⟨10, 0⟩, ⟨10, 10⟩, ⟨0, 10⟩] 0 10 0 10
    [⟨5, 5⟩, ⟨6, 7⟩] [1, 1] [⟨0, 0⟩, ⟨0, 0⟩] false (by decide) (by norm_num)
  refine ⟨h.2.2.2.1, (h.2.2.1 _ (by simp) ?_).1⟩
  simp only [lassoSpec]
  decide

/-- C6: during a drag of a multi-selected group, every pointer-move translates
every member of the drag group by the identical `(deltaX, deltaY)` for that
frame and leaves every entity outside the group unchanged; after the drop, when
not on a trigger zone, every member of the group has `selected = true` while
every entity outside the group is unchanged (in particular its `selected` flag).
The drag group is a set of distinct references, and for a singleton group the
flag is set through `selectedStroke`, which the pointer-down wiring makes the
group's unique member. -/
theorem drag_group_coherence (strokes : List Entity) (dragged : List ℕ)
    (hN : dragged.Nodup) (off pt : Point) (sel : Option ℕ)
    (hsel : 1 < dragged.length ∨ ∃ i, dragged = [i] ∧ sel = some i) :
    (∀ j : ℕ,
        (continueDragging strokes dragged off pt)[j]? =
          if j ∈ dragged then (strokes[j]?).map (translateEntity (pt.x - off.x) (pt.y - off.y))
          else strokes[j]?) ∧
      (∀ j : ℕ,
        (finishDragging strokes dragged sel)[j]? =
          if j ∈ dragged then (strokes[j]?).map Entity.setSelected
          else strokes[j]?) := by
  constructor
  · intro j
    exact foldl_updateAt_getElem? _ dragged hN strokes j
  · intro j
    rcases hsel with hlen | ⟨i, hdr, hse⟩
    · rw [finishDragging.eq_def, if_pos hlen]
      exact foldl_updateAt_getElem? _ dragged hN strokes j
    · subst hdr
      rw [finishDragging.eq_def, if_neg (by simp), hse]
      by_cases hij : j = i
      · subst hij
        by_cases hlt : j < strokes.length
        · simp [updateAt, List.getElem?_set, hlt,
            List.getD_eq_getElem strokes defaultEntity hlt, List.getElem?_eq_getElem hlt]
        · simp [updateAt, List.getElem?_set, hlt,
            List.getElem?_eq_none (Nat.le_of_not_lt hlt)]
      · simp [updateAt, List.getElem?_set, hij, Ne.symm hij]

/-- Witness for C6: a two-member drag group over a three-entity scene, moved by
`(5, -3)` and then dropped off the trigger zone. -/
theorem drag_group_coherence_witness :
    ((continueDragging
        [Entity.pen [⟨0, 0⟩, ⟨1, 1⟩] [1/2, 1/2] [⟨0, 0⟩, ⟨0, 0⟩] false,
         Entity.imageObject ⟨10, 10⟩ 512 512 none false false 0,
         Entity.pen [⟨7, 7⟩] [1] [⟨0, 0⟩] false] [0, 1] ⟨0, 0⟩ ⟨5, -3⟩)[0]? =
      some (Entity.pen [⟨5, -3⟩, ⟨6, -2⟩] [1/2, 1/2] [⟨0, 0⟩, ⟨0, 0⟩] false)) ∧
    ((continueDragging
        [Entity.pen [⟨0, 0⟩, ⟨1, 1⟩] [1/2, 1/2] [⟨0, 0⟩, ⟨0, 0⟩] false,
         Entity.imageObject ⟨10, 10⟩ 512 512 none false false 0,
         Entity.pen [⟨7, 7⟩] [1] [⟨0, 0⟩] false] [0, 1] ⟨0, 0⟩ ⟨5, -3⟩)[2]? =
      some (Entity.pen [⟨7, 7⟩] [1] [⟨0, 0⟩] false)) ∧
    ((finishDragging
        [Entity.pen [⟨0, 0⟩, ⟨1, 1⟩] [1/2, 1/2] [⟨0, 0⟩, ⟨0, 0⟩] false,
         Entity.imageObject ⟨10, 10⟩ 512 512 none false false 0,
         Entity.pen [⟨7, 7⟩] [1] [⟨0, 0⟩] false] [0, 1] none)[1]? =
      some (Entity.imageObject ⟨10, 10⟩ 512 512 none true false 0)) := by
  have h := drag_group_coherence
    [Entity.pen [⟨0, 0⟩, ⟨1, 1⟩] [1/2, 1/2] [⟨0, 0⟩, ⟨0, 0⟩] false,
     Entity.imageObject ⟨10, 10⟩ 512 512 none false false 0,
     Entity.pen [⟨7, 7⟩] [1] [⟨0, 0⟩] false] [0, 1] (by decide) ⟨0, 0⟩ ⟨5, -3⟩ none
    (Or.inl (by decide))
  refine ⟨?_, ?_, ?_⟩
  · rw [h.1 0]; norm_num [translateEntity]
  · rw [h.1 2]; norm_num
  · rw [h.2 1]; norm_num [Entity.setSelected]

/-- Witness for C9 at a concrete failing parse. -/
theorem classify_parse_fallback_witness :
    analyzeDrawingResult (fun _ => none) "not json" = defaultSmartResult ∧
      analyzeActionResult (fun _ => none) "not json" = defaultActionResult :=
  classify_parse_fallback (fun _ => none) (fun _ => none) "not json" rfl rfl

end SketchPad
